import Mathlib

/-!
Verification of the multi-file htpasswd credential store
(`src/htpasswd.ts` of `verdaccio-group-htpasswd`).

The store keeps an in-memory index from username to
`{ password hash, group list }`, reloads it from a list of configured
htpasswd files guarded by modification-time staleness checks, and
mutates the default file under an advisory file lock.

The embedding below translates `src/htpasswd.ts` directly.  The helper
module `src/utils.ts` (`parseHTPasswd`, `sanityCheck`, `lockAndRead`,
`addUserToHTPasswd`, `changePasswordToHTPasswd`, `verifyPassword`) is
not part of the sources; those helpers are modelled from the spec
(section 4.1 and 4.2), as marked on each definition.

Asynchronous callback code is embedded as explicit state passing.  File
system outcomes (stat results, read results, write results, lock
acquisition) are supplied by explicit environment values, and the
nondeterministic completion order of the concurrent per-file promises in
`reload` is captured by letting theorems quantify over the order in
which the per-file merge callbacks run.  Modification times are `Date`
objects, modelled with an allocation identity, because the program
compares them with `===`, which on objects is reference identity.
-/

namespace Htpasswd

/-- A user record: password hash and the list of group names
(`User` in `types/index.ts`). -/
structure User where
  passwd : String
  groups : List String
deriving Repr, DecidableEq

/-- The in-memory user index `this.users`: a JS object keyed by
username, embedded as an association list in key-insertion order. -/
abbrev UserIndex := List (String × User)

/-- Lookup of a key in the index (JS property access `users[u]`). -/
def lookupU : UserIndex → String → Option User
  | [], _ => none
  | (k, v) :: rest, u => if k = u then some v else lookupU rest u

/-- JS object update `obj[k] = v`: replaces the value at an existing key
in place, otherwise appends the new key at the end. -/
def setUser : UserIndex → String → User → UserIndex
  | [], u, r => [(u, r)]
  | (k, v) :: rest, u, r =>
      if k = u then (k, r) :: rest else (k, v) :: setUser rest u r

/-- JS object spread / `Object.assign(base, upd)`: every key of `upd`
is written into `base` in order. -/
def assignIndex (base upd : UserIndex) : UserIndex :=
  upd.foldl (fun acc p => setUser acc p.1 p.2) base

/-- Adjoining a group name to a group list as a set union with a
singleton, keeping the first occurrence (spec 4.1: the record's group
set is the union of the existing groups and the file's group name). -/
def addGroup (gs : List String) (g : String) : List String :=
  if g ∈ gs then gs else gs ++ [g]

/-- Group list currently recorded for a username, empty when absent. -/
def groupsAt (idx : UserIndex) (u : String) : List String :=
  match lookupU idx u with
  | some r => r.groups
  | none => []

/-- Password hash currently recorded for a username. -/
def passwdAt (idx : UserIndex) (u : String) : Option String :=
  (lookupU idx u).map User.passwd

/-- Splitting a character list at every occurrence of a separator. -/
def splitOnChar (c : Char) : List Char → List (List Char)
  | [] => [[]]
  | x :: xs =>
      match splitOnChar c xs with
      | [] => [[]]
      | r :: rs => if x = c then [] :: r :: rs else (x :: r) :: rs

/-- The newline character, written via its code point. -/
def nlChar : Char := Char.ofNat 10

/-- Splitting a line at its FIRST colon into username and hash. -/
def splitFirstColon : List Char → Option (List Char × List Char)
  | [] => none
  | x :: xs =>
      if x = ':' then some ([], xs)
      else
        match splitFirstColon xs with
        | some p => some (x :: p.1, p.2)
        | none => none

/-- Modelled from the spec: the per-line handling of `parseEntries`
(spec 4.1) of the absent `src/utils.ts`: a line that is blank (only
whitespace), starts with a hash mark, or has no colon is skipped;
otherwise it is split on the first colon into username and password
hash. -/
def parseLine (line : List Char) : Option (String × String) :=
  if line.all Char.isWhitespace then none
  else if line.head? = some '#' then none
  else
    match splitFirstColon line with
    | some p => some (String.mk p.1, String.mk p.2)
    | none => none

/-- The (username, hash) pairs of the well-formed lines of a file body,
in line order. -/
def validPairs (body : String) : List (String × String) :=
  (splitOnChar nlChar body.data).filterMap parseLine

/-- Modelled from the spec: `parseHTPasswd` of the absent `src/utils.ts`
(spec 4.1 `parseEntries`).  Builds a fresh mapping of the file's
entries: each parsed username is mapped to the hash just parsed, with
group set the union of the groups `existing` already has for it and the
file's group name; `existing` itself is not mutated. -/
def parseHTPasswd (body : String) (groupName : String) (existing : UserIndex) : UserIndex :=
  (validPairs body).foldl
    (fun acc p => setUser acc p.1 ⟨p.2, addGroup (groupsAt existing p.1) groupName⟩) []

/-- Lookup of the LAST binding of a key in an association list (later
bindings shadow earlier ones, as JS object assignment does). -/
def lookupLast {β : Type} : List (String × β) → String → Option β
  | [], _ => none
  | p :: rest, u =>
      match lookupLast rest u with
      | some v => some v
      | none => if p.1 = u then some p.2 else none

/-- The usernames that a file body contributes. -/
def fileUsers (body : String) : List String :=
  (validPairs body).map Prod.fst

/-- The hash of the last well-formed line of `body` for username `u`. -/
def lastHash (body : String) (u : String) : Option String :=
  lookupLast (validPairs body) u

/-- File-system error object: only the `code` property matters to the
program (`err.code === 'ENOENT'` checks). -/
structure FsErr where
  code : String
deriving Repr, DecidableEq

/-- A JS `Date` object: its time value together with an allocation
identity.  `===` between two `Date` objects compares object references,
never time values, so two `Date`s are `===`-equal exactly when they are
the same allocation (`ident` here), even when their times coincide.
Every `fs.stat` call allocates a fresh `Stats` object with a fresh
`Date`, so its `mtime` has an identity distinct from every previously
stored `Date`. -/
structure DateObj where
  ident : Nat
  time : Nat
deriving Repr, DecidableEq

/-- JS `lastTime === stats.mtime` where `lastTime : Date | undefined`
and `stats.mtime : Date`: reference identity; `undefined === d` is
false. -/
def jsEqDate : Option DateObj → DateObj → Bool
  | none, _ => false
  | some d, m => d.ident == m.ident

/-- Per-file configuration state: `FileConf` of `types/index.ts` after
the constructor resolved `path`.  `lastTime` is the last observed
modification time, a `Date` object (absent until first read). -/
structure FileConf where
  path : Option String
  groupName : String
  isDefault : Bool
  lastTime : Option DateObj
deriving Repr, DecidableEq

/-- File-system outcomes for one file during a reload: the result of
`fs.stat` (its freshly allocated mtime `Date` on success) and of
`fs.readFile`. -/
structure FileEnv where
  statResult : Except FsErr DateObj
  readResult : Except FsErr String
deriving Repr

/-- Result of one `_reloadFile` call: the settled promise, the updated
per-file state, the updated shared index, and whether `fs.readFile` was
invoked at all. -/
structure ReloadFileOut where
  result : Except FsErr Unit
  conf : FileConf
  users : UserIndex
  readAttempted : Bool
deriving Repr

/-- Embedding of `_reloadFile` (htpasswd.ts lines 175-202).  A missing
`path` resolves immediately.  A stat error rejects.  If the stored
`lastTime` is `===`-equal (reference identity) to the stat's mtime
`Date` the promise resolves without reading — a branch no real
execution reaches, since `fs.stat` returns a fresh `Date` every call.
Otherwise `item.lastTime` is set to the new mtime `Date` BEFORE
`fs.readFile` runs; a read error then rejects (with the timestamp
already updated), and a successful read merges the parsed contents into
the shared index with `Object.assign`. -/
def reloadFile (env : FileEnv) (item : FileConf) (users : UserIndex) : ReloadFileOut :=
  match item.path with
  | none => ⟨Except.ok (), item, users, false⟩
  | some _ =>
    match env.statResult with
    | Except.error e => ⟨Except.error e, item, users, false⟩
    | Except.ok mtime =>
      if jsEqDate item.lastTime mtime then ⟨Except.ok (), item, users, false⟩
      else
        let item1 : FileConf := { item with lastTime := some mtime }
        match env.readResult with
        | Except.error e => ⟨Except.error e, item1, users, true⟩
        | Except.ok buffer =>
            ⟨Except.ok (), item1,
              assignIndex users (parseHTPasswd buffer item.groupName users), true⟩

/-- One file's merge step as executed by its read callback:
`Object.assign(oldUsers, parseHTPasswd(buffer, groupName, oldUsers))`,
for a file with the given group name and on-disk contents. -/
def mergeFile (users : UserIndex) (f : FileConf × String) : UserIndex :=
  assignIndex users (parseHTPasswd f.2 f.1.groupName users)

/-- The shared index after the read callbacks of the given files have
all run, in list order.  `reload` (htpasswd.ts lines 168-173) issues the
per-file promises concurrently with `Promise.all`; each merge mutates
`this.users` in place when that file's read completes, so the index is
the fold of the merge steps in READ-COMPLETION order, which is not
forced to be the configured order. -/
def runReload (order : List (FileConf × String)) (users : UserIndex) : UserIndex :=
  order.foldl mergeFile users

/-- Outcome of a full `reload` execution: the error the `Promise.all`
settled with (the first rejection in completion order, if any), the
updated per-file states, and the updated shared index. -/
structure ReloadOut where
  err : Option FsErr
  confs : List FileConf
  users : UserIndex
deriving Repr

/-- Embedding of `reload` (htpasswd.ts lines 168-173) over one
execution: `inputs` lists every configured file with its file-system
outcomes, in the order in which the per-file operations complete.
Merges of files that succeed are applied even when another file's
promise already rejected (promise callbacks are not cancelled); the
callback receives the first rejection when one exists. -/
def reloadRun : List (FileConf × FileEnv) → UserIndex → ReloadOut
  | [], users => ⟨none, [], users⟩
  | fe :: rest, users =>
      let out := reloadFile fe.2 fe.1 users
      let tail := reloadRun rest out.users
      ⟨(match out.result with
          | Except.error e => some e
          | Except.ok _ => none) <|> tail.err,
        out.conf :: tail.confs, tail.users⟩

/-- File-system outcomes of a file that exists on disk with the given
modification time `Date` and contents, and reads cleanly. -/
def okEnv (d : DateObj) (body : String) : FileEnv :=
  ⟨Except.ok d, Except.ok body⟩

/-- The hash of the last line for `u` across a list of files, taking
the LAST file (in merge order) containing `u`. -/
def lastHashIn : List (FileConf × String) → String → Option String
  | [], _ => none
  | f :: rest, u =>
      match lastHashIn rest u with
      | some h => some h
      | none => lastHash f.2 u

/-- Maximum-user setting: a number or `Infinity`. -/
inductive MaxUsers where
  | num (n : Int)
  | inf
deriving Repr, DecidableEq

/-- Embedding of `this.maxUsers = maxUsers || Infinity` (htpasswd.ts
line 57): an absent or zero (falsy) configured value becomes
`Infinity`; any other number is kept. -/
def resolveMaxUsers : Option Int → MaxUsers
  | none => MaxUsers.inf
  | some n => if n = 0 then MaxUsers.inf else MaxUsers.num n

/-- Validation errors raised by `sanityCheck`. -/
inductive SanityErr where
  | badCreds
  | userExists
  | maxUsersReached
deriving Repr, DecidableEq

/-- Modelled from the spec: `sanityCheck` of the absent `src/utils.ts`
(spec 4.1 validation rule).  Fails when username or password is empty,
with `UserExists` when the username is already present in the given
index, and with `MaxUsersReached` when registration is disabled
(negative maximum) or the user count has reached the maximum. -/
def sanityCheck (user password : String) (users : UserIndex) (maxUsers : MaxUsers) :
    Option SanityErr :=
  if user = "" ∨ password = "" then some SanityErr.badCreds
  else if (lookupU users user).isSome then some SanityErr.userExists
  else
    match maxUsers with
    | MaxUsers.inf => none
    | MaxUsers.num n =>
        if n < 0 ∨ (users.length : Int) ≥ n then some SanityErr.maxUsersReached else none

/-- Errors a mutation operation can report to its caller. -/
inductive MutErr where
  | fsErr (code : String)
  | sanity (e : SanityErr)
  | userNotFound
deriving Repr, DecidableEq

/-- Modelled from the spec: `addUserToHTPasswd` of the absent
`src/utils.ts` (spec 4.1 `serializeEntries`): appends a new
`username:hash` line plus trailing newline to the existing content.
The hash primitive is pluggable (spec 4.1), passed in as `hashFn`. -/
def addUserToHTPasswd (body user password : String) (hashFn : String → String) : String :=
  body ++ user ++ ":" ++ hashFn password ++ "\n"

/-- Modelled from the spec: `changePasswordToHTPasswd` of the absent
`src/utils.ts` (spec 4.1 `updateEntry`): replaces the hash field of the
existing line for the username with the hash of the new password,
preserving all other lines and line order, and fails with a
UserNotFound-class condition when no line parses to that exact
username.  The old password argument is present in the call but the
spec leaves it unchecked (spec 6: `oldPasswordIgnoredOrChecked`). -/
def joinLinesChar : List (List Char) → List Char
  | [] => []
  | [l] => l
  | l :: ls => l ++ nlChar :: joinLinesChar ls

def changePasswordToHTPasswd (body user password newPassword : String)
    (hashFn : String → String) : Except MutErr String :=
  if (lastHash body user).isSome then
    Except.ok (String.mk (joinLinesChar ((splitOnChar nlChar body.data).map (fun line =>
      match parseLine line with
      | some p => if p.1 = user then (user ++ ":" ++ hashFn newPassword).data else line
      | none => line))))
  else Except.error MutErr.userNotFound

/-- Observable events of a mutation operation, in program order. -/
inductive Ev where
  | sanityEv
  | lockReadEv
  | validateEv
  | writeEv
  | reloadPostWriteEv
  | unlockEv
deriving Repr, DecidableEq

/-- Whether an event touches the file system. -/
def isFileOp : Ev → Bool
  | Ev.lockReadEv => true
  | Ev.writeEv => true
  | Ev.reloadPostWriteEv => true
  | Ev.unlockEv => true
  | _ => false

/-- Whether an event is a validation step. -/
def isValidation : Ev → Bool
  | Ev.sanityEv => true
  | Ev.validateEv => true
  | _ => false

/-- Whether some validation step runs before the first file operation
of a trace. -/
def validationBeforeFileOp (tr : List Ev) : Bool :=
  (tr.takeWhile (fun e => ¬ isFileOp e)).any isValidation

/-- Modelled from the spec: outcome of `lockAndRead` of the absent
`src/utils.ts` (spec 4.2 Locked File Access).  `acquired` records
whether the advisory lock was taken; on a missing target file the
acquisition still succeeds and the read step reports a distinguished
NotFound (ENOENT) error; any other read failure is reported with the
lock still held.  The program's callback observes only `err` and
`res`. -/
structure LockReadRes where
  acquired : Bool
  err : Option FsErr
  res : Option String
deriving Repr

/-- File-system outcomes of one mutation operation: the `lockAndRead`
outcome, the `fs.writeFile` outcome (`none` means success), and the
per-file outcomes of the reload `_writeFile` triggers after a
successful write, in completion order. -/
structure MutEnv where
  lockRead : LockReadRes
  writeResult : Option FsErr
  postReload : List (FileConf × FileEnv)
deriving Repr

/-- Observable outcome of a mutation operation: the error and boolean
handed to the real callback, the final in-memory index, how many times
`unlockFile` was invoked, and the event trace. -/
structure MutOut where
  err : Option MutErr
  ok : Bool
  users : UserIndex
  unlockAttempts : Nat
  trace : List Ev
deriving Repr

/-- The `cb` closure shared by `adduser` (htpasswd.ts lines 125-134) and
`changePassword` (lines 233-242): when `locked` is set it calls
`unlockFile` first, ignores any unlock error, and passes the pending
error unchanged to the real callback together with the boolean
`!err`; otherwise it calls the real callback directly. -/
def mutFinish (locked : Bool) (err : Option MutErr) (users : UserIndex) (tr : List Ev) :
    MutOut :=
  if locked then ⟨err, err.isNone, users, 1, tr ++ [Ev.unlockEv]⟩
  else ⟨err, err.isNone, users, 0, tr⟩

/-- The shared tail of `adduser` after `lockAndRead` reported no fatal
error: merge the default file's content into the index, re-run
`sanityCheck` against the merged index, and on success write the
appended file and reload (the reload outcome is discarded by
`_writeFile`, which calls `cb(null)` regardless). -/
def adduserTail (env : MutEnv) (locked : Bool) (body user password : String)
    (users : UserIndex) (defaultGroup : String) (maxUsers : MaxUsers)
    (hashFn : String → String) (tr : List Ev) : MutOut :=
  match sanityCheck user password
      (assignIndex users (parseHTPasswd body defaultGroup users)) maxUsers with
  | some e =>
      mutFinish locked (some (MutErr.sanity e))
        (assignIndex users (parseHTPasswd body defaultGroup users))
        (tr ++ [Ev.validateEv])
  | none =>
      match env.writeResult with
      | some e =>
          mutFinish locked (some (MutErr.fsErr e.code))
            (assignIndex users (parseHTPasswd body defaultGroup users))
            (tr ++ [Ev.validateEv, Ev.writeEv])
      | none =>
          mutFinish locked none
            (reloadRun env.postReload
              (assignIndex users (parseHTPasswd body defaultGroup users))).users
            (tr ++ [Ev.validateEv, Ev.writeEv, Ev.reloadPostWriteEv])

/-- Embedding of `adduser` (htpasswd.ts lines 111-162).  Preliminary
`sanityCheck` against the cached index; then `lockAndRead` on the
default path; `locked` is set only when `lockAndRead` reported no
error; a non-ENOENT error is returned through `cb`; an ENOENT error is
ignored and the body treated as empty ("we'll just create .htpasswd"). -/
def adduserRun (env : MutEnv) (user password : String) (users : UserIndex)
    (defaultGroup : String) (maxUsers : MaxUsers) (hashFn : String → String) : MutOut :=
  match sanityCheck user password users maxUsers with
  | some e => ⟨some (MutErr.sanity e), false, users, 0, [Ev.sanityEv]⟩
  | none =>
      match env.lockRead.err with
      | some e =>
          if e.code = "ENOENT" then
            adduserTail env false "" user password users defaultGroup maxUsers hashFn
              [Ev.sanityEv, Ev.lockReadEv]
          else
            mutFinish false (some (MutErr.fsErr e.code)) users
              [Ev.sanityEv, Ev.lockReadEv]
      | none =>
          adduserTail env true (env.lockRead.res.getD "") user password users defaultGroup
            maxUsers hashFn [Ev.sanityEv, Ev.lockReadEv]

/-- The tail of `changePassword` after `lockAndRead` reported no fatal
error: merge the default file's content into the index, fail with
`User not found` when the freshly parsed default-file content lacks the
username, otherwise serialize the updated file and write it. -/
def changePasswordTail (env : MutEnv) (locked : Bool)
    (body user password newPassword : String) (users : UserIndex)
    (defaultGroup : String) (hashFn : String → String) (tr : List Ev) : MutOut :=
  if (lookupU (parseHTPasswd body defaultGroup users) user).isSome then
    match changePasswordToHTPasswd body user password newPassword hashFn with
    | Except.error e =>
        mutFinish locked (some e)
          (assignIndex users (parseHTPasswd body defaultGroup users))
          (tr ++ [Ev.validateEv])
    | Except.ok _ =>
        match env.writeResult with
        | some e =>
            mutFinish locked (some (MutErr.fsErr e.code))
              (assignIndex users (parseHTPasswd body defaultGroup users))
              (tr ++ [Ev.validateEv, Ev.writeEv])
        | none =>
            mutFinish locked none
              (reloadRun env.postReload
                (assignIndex users (parseHTPasswd body defaultGroup users))).users
              (tr ++ [Ev.validateEv, Ev.writeEv, Ev.reloadPostWriteEv])
  else
    mutFinish locked (some MutErr.userNotFound)
      (assignIndex users (parseHTPasswd body defaultGroup users))
      (tr ++ [Ev.validateEv])

/-- Embedding of `changePassword` (htpasswd.ts lines 227-266).  There is
no preliminary validation: the operation starts with `lockAndRead` on
the default path; `locked` is set only when `lockAndRead` reported no
error; a non-ENOENT error is returned through `cb`; an ENOENT error is
ignored and the body treated as empty. -/
def changePasswordRun (env : MutEnv) (user password newPassword : String)
    (users : UserIndex) (defaultGroup : String) (hashFn : String → String) : MutOut :=
  match env.lockRead.err with
  | some e =>
      if e.code = "ENOENT" then
        changePasswordTail env false "" user password newPassword users defaultGroup
          hashFn [Ev.lockReadEv]
      else mutFinish false (some (MutErr.fsErr e.code)) users [Ev.lockReadEv]
  | none =>
      changePasswordTail env true (env.lockRead.res.getD "") user password newPassword
        users defaultGroup hashFn [Ev.lockReadEv]

/-- Observable outcome of `authenticate`: the error and the
authentication result handed to the callback (`none` stands for a
falsy result, i.e. authentication failed). -/
structure AuthOut where
  err : Option FsErr
  result : Option (List String)
deriving Repr, DecidableEq

/-- Embedding of `authenticate` (htpasswd.ts lines 82-95) over one
execution whose reload sees the given per-file outcomes.  A reload
error with code ENOENT is replaced by `null` (authentication failure);
any other reload error is passed through; on success the user is looked
up in the reloaded index and the password verified with the pluggable
`verifyFn`. -/
def authRun (inputs : List (FileConf × FileEnv)) (user password : String)
    (users : UserIndex) (verifyFn : String → String → Bool) : AuthOut :=
  let r := reloadRun inputs users
  match r.err with
  | some e => ⟨if e.code = "ENOENT" then none else some e, none⟩
  | none =>
      match lookupU r.users user with
      | none => ⟨none, none⟩
      | some u0 => if verifyFn password u0.passwd then ⟨none, some u0.groups⟩ else ⟨none, none⟩

/-- One raw entry of the configured `files` list (`FileConf` of
`types/index.ts` before path resolution). -/
structure FileInput where
  file : String
  isDefault : Bool
  groupName : String
deriving Repr, DecidableEq

/-- The state a successfully constructed store starts with. -/
structure Store where
  users : UserIndex
  files : List FileConf
  defaultConf : FileConf
  maxUsers : MaxUsers
  path : String
deriving Repr

/-- Embedding of `Path.resolve(Path.dirname(self_path), item.file)`:
joins the configuration directory with the configured file name. -/
def resolvePath (dir f : String) : String := dir ++ "/" ++ f

/-- The distinct failures the constructor can throw. -/
inductive CtorErr where
  | typeError
  | noFiles
  | noDefault
deriving Repr, DecidableEq

/-- Embedding of the constructor (htpasswd.ts lines 41-73).  A missing
`files` list makes `files.map` throw a TypeError; an empty list throws
`should specify "files" in config`; `this.files.find(item =>
item.isDefault)` picks the FIRST entry marked default, and only when
none exists (or its resolved path is empty) does the constructor throw
`A Defualt file should be specified`. -/
def constructorRun (filesArg : Option (List FileInput)) (max_users : Option Int)
    (dir : String) : Except CtorErr Store :=
  match filesArg with
  | none => Except.error CtorErr.typeError
  | some files =>
      let maxUsers := resolveMaxUsers max_users
      let resolved := files.map (fun it =>
        FileConf.mk (some (resolvePath dir it.file)) it.groupName it.isDefault none)
      if files.isEmpty then Except.error CtorErr.noFiles
      else
        match resolved.find? (fun it => it.isDefault) with
        | none => Except.error CtorErr.noDefault
        | some dc =>
            match dc.path with
            | none => Except.error CtorErr.noDefault
            | some p =>
                if p = "" then Except.error CtorErr.noDefault
                else Except.ok ⟨[], resolved, dc, maxUsers, p⟩

/-! Basic lemmas about the index operations. -/

theorem lookupU_setUser (idx : UserIndex) (k : String) (r : User) (u : String) :
    lookupU (setUser idx k r) u = if k = u then some r else lookupU idx u := by
  induction idx with
  | nil => simp [setUser, lookupU]
  | cons p rest ih =>
      obtain ⟨k₀, v₀⟩ := p
      by_cases hk : k₀ = k
      · subst hk
        by_cases hu : k₀ = u <;> simp [setUser, lookupU, hu]
      · by_cases hu : k₀ = u
        · subst hu
          have hk2 : ¬ k = k₀ := fun h => hk h.symm
          simp [setUser, lookupU, hk, hk2]
        · simp [setUser, lookupU, hk, hu, ih]

theorem lookupU_foldl_setUser {β : Type} (g : String → β → User)
    (pairs : List (String × β)) (init : UserIndex) (u : String) :
    lookupU (pairs.foldl (fun acc p => setUser acc p.1 (g p.1 p.2)) init) u =
      match lookupLast pairs u with
      | some v => some (g u v)
      | none => lookupU init u := by
  induction pairs generalizing init with
  | nil => simp [lookupLast]
  | cons p rest ih =>
      rw [List.foldl_cons, ih]
      rcases h : lookupLast rest u with _ | v
      · by_cases hp : p.1 = u
        · subst hp
          simp [lookupLast, h, lookupU_setUser]
        · simp [lookupLast, h, hp, lookupU_setUser]
      · simp [lookupLast, h]

/-- Characterisation of `parseHTPasswd`: it maps exactly the usernames of
the file's well-formed lines, each to the last hash parsed for that
username, with groups unioned from `existing`. -/
theorem lookupU_parseHTPasswd (body groupName : String) (existing : UserIndex) (u : String) :
    lookupU (parseHTPasswd body groupName existing) u =
      (lastHash body u).map (fun h => ⟨h, addGroup (groupsAt existing u) groupName⟩) := by
  unfold parseHTPasswd lastHash
  rw [lookupU_foldl_setUser (fun k h => ⟨h, addGroup (groupsAt existing k) groupName⟩)]
  rcases h : lookupLast (validPairs body) u with _ | v
  · simp [h, lookupU]
  · simp [h]

theorem lookupU_assignIndex (base upd : UserIndex) (u : String) :
    lookupU (assignIndex base upd) u =
      match lookupLast upd u with
      | some v => some v
      | none => lookupU base u := by
  unfold assignIndex
  rw [show (fun (acc : UserIndex) (p : String × User) => setUser acc p.1 p.2) =
        (fun acc p => setUser acc p.1 ((fun _ v => v) p.1 p.2)) from rfl]
  rw [lookupU_foldl_setUser (fun _ v => v)]
  rcases h : lookupLast upd u with _ | v <;> simp [h]
/-! Keys of the index, and absence of duplicate keys. -/

theorem lookupU_eq_none_iff (idx : UserIndex) (u : String) :
    lookupU idx u = none ↔ u ∉ idx.map Prod.fst := by
  induction idx with
  | nil => simp [lookupU]
  | cons p rest ih =>
      by_cases hp : p.1 = u
      · simp [lookupU, hp]
      · have hne : ¬ u = p.1 := fun h => hp h.symm
        simp [lookupU, hp, ih, hne]

theorem mem_keys_setUser (idx : UserIndex) (k : String) (r : User) (a : String) :
    a ∈ (setUser idx k r).map Prod.fst ↔ a ∈ idx.map Prod.fst ∨ a = k := by
  induction idx with
  | nil => simp [setUser]
  | cons p rest ih =>
      by_cases hp : p.1 = k
      · obtain ⟨k₀, v₀⟩ := p
        simp only at hp
        subst hp
        simp [setUser]
        tauto
      · obtain ⟨k₀, v₀⟩ := p
        simp only at hp
        simp [setUser, hp, ih]
        tauto

theorem nodup_keys_setUser (idx : UserIndex) (k : String) (r : User)
    (h : (idx.map Prod.fst).Nodup) : ((setUser idx k r).map Prod.fst).Nodup := by
  induction idx with
  | nil => simp [setUser]
  | cons p rest ih =>
      obtain ⟨k₀, v₀⟩ := p
      rw [List.map_cons, List.nodup_cons] at h
      by_cases hp : k₀ = k
      · subst hp
        simpa [setUser] using h
      · rw [show setUser ((k₀, v₀) :: rest) k r = (k₀, v₀) :: setUser rest k r by
          simp [setUser, hp]]
        rw [List.map_cons, List.nodup_cons]
        refine ⟨?_, ih h.2⟩
        rw [mem_keys_setUser]
        rintro (hc | hc)
        · exact h.1 hc
        · exact hp hc

theorem nodup_keys_parseHTPasswd (body groupName : String) (existing : UserIndex) :
    ((parseHTPasswd body groupName existing).map Prod.fst).Nodup := by
  unfold parseHTPasswd
  have : ∀ (pairs : List (String × String)) (acc : UserIndex),
      (acc.map Prod.fst).Nodup →
      ((pairs.foldl (fun acc p =>
          setUser acc p.1 ⟨p.2, addGroup (groupsAt existing p.1) groupName⟩) acc).map
        Prod.fst).Nodup := by
    intro pairs
    induction pairs with
    | nil => intro acc h; simpa using h
    | cons p rest ih =>
        intro acc h
        rw [List.foldl_cons]
        exact ih _ (nodup_keys_setUser _ _ _ h)
  exact this _ [] (by simp)

theorem lookupLast_eq_lookupU (idx : UserIndex) (u : String)
    (h : (idx.map Prod.fst).Nodup) : lookupLast idx u = lookupU idx u := by
  induction idx with
  | nil => simp [lookupLast, lookupU]
  | cons p rest ih =>
      rw [List.map_cons, List.nodup_cons] at h
      by_cases hp : p.1 = u
      · have hnone : lookupU rest u = none := by
          rw [lookupU_eq_none_iff]
          rw [hp] at h
          exact h.1
        have hlast : lookupLast rest u = none := by rw [ih h.2]; exact hnone
        simp [lookupLast, lookupU, hp, hlast]
      · simp [lookupLast, lookupU, hp, ih h.2]
        rcases lookupU rest u with _ | v <;> rfl

/-- Characterisation of one merge step: a username gains the file's
last hash for it and the file's group name unioned into its groups;
usernames the file does not mention are untouched. -/
theorem lookupU_mergeFile (users : UserIndex) (f : FileConf × String) (u : String) :
    lookupU (mergeFile users f) u =
      match lastHash f.2 u with
      | some h => some ⟨h, addGroup (groupsAt users u) f.1.groupName⟩
      | none => lookupU users u := by
  unfold mergeFile
  rw [lookupU_assignIndex,
    lookupLast_eq_lookupU _ _ (nodup_keys_parseHTPasswd f.2 f.1.groupName users),
    lookupU_parseHTPasswd]
  rcases lastHash f.2 u with _ | h <;> simp
theorem groupsAt_mergeFile (users : UserIndex) (f : FileConf × String) (u : String) :
    groupsAt (mergeFile users f) u =
      if (lastHash f.2 u).isSome then addGroup (groupsAt users u) f.1.groupName
      else groupsAt users u := by
  unfold groupsAt
  rw [lookupU_mergeFile]
  rcases lastHash f.2 u with _ | h <;> simp [groupsAt]

theorem passwdAt_mergeFile (users : UserIndex) (f : FileConf × String) (u : String) :
    passwdAt (mergeFile users f) u =
      match lastHash f.2 u with
      | some h => some h
      | none => passwdAt users u := by
  unfold passwdAt
  rw [lookupU_mergeFile]
  rcases lastHash f.2 u with _ | h <;> simp

theorem isSome_lookupU_mergeFile (users : UserIndex) (f : FileConf × String) (u : String) :
    (lookupU (mergeFile users f) u).isSome =
      ((lastHash f.2 u).isSome || (lookupU users u).isSome) := by
  rw [lookupU_mergeFile]
  rcases lastHash f.2 u with _ | h <;> simp

theorem mem_addGroup (gs : List String) (g x : String) :
    x ∈ addGroup gs g ↔ x ∈ gs ∨ x = g := by
  unfold addGroup
  by_cases h : g ∈ gs
  · simp only [if_pos h]
    constructor
    · exact Or.inl
    · rintro (hx | rfl)
      · exact hx
      · exact h
  · simp [h]

theorem runReload_cons (f : FileConf × String) (rest : List (FileConf × String))
    (users : UserIndex) :
    runReload (f :: rest) users = runReload rest (mergeFile users f) := rfl

/-- Password hash after a reload pass: the last hash of the last merged
file containing the username, the pre-reload hash when no merged file
contains it. -/
theorem passwdAt_runReload (order : List (FileConf × String)) (users : UserIndex)
    (u : String) :
    passwdAt (runReload order users) u =
      match lastHashIn order u with
      | some h => some h
      | none => passwdAt users u := by
  induction order generalizing users with
  | nil => simp [runReload, lastHashIn]
  | cons f rest ih =>
      rw [runReload_cons, ih]
      rcases h : lastHashIn rest u with _ | hh
      · simp [lastHashIn, h, passwdAt_mergeFile]
      · simp [lastHashIn, h]

/-- Group membership after a reload pass: the union of the pre-reload
groups and the group names of every merged file containing the
username, independent of merge order. -/
theorem mem_groupsAt_runReload (order : List (FileConf × String)) (users : UserIndex)
    (u g : String) :
    g ∈ groupsAt (runReload order users) u ↔
      g ∈ groupsAt users u ∨
        ∃ f ∈ order, (lastHash f.2 u).isSome ∧ f.1.groupName = g := by
  induction order generalizing users with
  | nil => simp [runReload]
  | cons f rest ih =>
      rw [runReload_cons, ih, groupsAt_mergeFile]
      by_cases h : (lastHash f.2 u).isSome
      · simp only [if_pos h, mem_addGroup, List.mem_cons]
        constructor
        · rintro ((hg | rfl) | ⟨f1, hf1, hsome, rfl⟩)
          · exact Or.inl hg
          · exact Or.inr ⟨f, Or.inl rfl, h, rfl⟩
          · exact Or.inr ⟨f1, Or.inr hf1, hsome, rfl⟩
        · rintro (hg | ⟨f1, (rfl | hf1), hsome, rfl⟩)
          · exact Or.inl (Or.inl hg)
          · exact Or.inl (Or.inr rfl)
          · exact Or.inr ⟨f1, hf1, hsome, rfl⟩
      · simp only [if_neg h, List.mem_cons]
        constructor
        · rintro (hg | ⟨f1, hf1, hsome, rfl⟩)
          · exact Or.inl hg
          · exact Or.inr ⟨f1, Or.inr hf1, hsome, rfl⟩
        · rintro (hg | ⟨f1, (rfl | hf1), hsome, rfl⟩)
          · exact Or.inl hg
          · exact absurd hsome (by simpa using h)
          · exact Or.inr ⟨f1, hf1, hsome, rfl⟩

/-- Presence after a reload pass: a username is present iff it was
present before or some merged file contains it, independent of merge
order. -/
theorem isSome_lookupU_runReload (order : List (FileConf × String)) (users : UserIndex)
    (u : String) :
    (lookupU (runReload order users) u).isSome ↔
      (lookupU users u).isSome ∨ ∃ f ∈ order, (lastHash f.2 u).isSome := by
  induction order generalizing users with
  | nil => simp [runReload]
  | cons f rest ih =>
      rw [runReload_cons, ih, isSome_lookupU_mergeFile]
      simp only [List.mem_cons, Bool.or_eq_true]
      constructor
      · rintro ((hf | hu) | ⟨f1, hf1, hsome⟩)
        · exact Or.inr ⟨f, Or.inl rfl, hf⟩
        · exact Or.inl hu
        · exact Or.inr ⟨f1, Or.inr hf1, hsome⟩
      · rintro (hu | ⟨f1, (rfl | hf1), hsome⟩)
        · exact Or.inl (Or.inr hu)
        · exact Or.inl (Or.inl hsome)
        · exact Or.inr ⟨f1, hf1, hsome⟩

/-- A reload execution over files that all exist on disk, are all stale,
and all read cleanly succeeds, advances every stored timestamp, and
leaves the index equal to the fold of the merge steps in completion
order. -/
theorem reloadRun_all_fresh (inputs : List (FileConf × DateObj × String))
    (users : UserIndex)
    (h : ∀ x ∈ inputs, x.1.path.isSome ∧ jsEqDate x.1.lastTime x.2.1 = false) :
    reloadRun (inputs.map (fun x => (x.1, okEnv x.2.1 x.2.2))) users =
      ⟨none, inputs.map (fun x => { x.1 with lastTime := some x.2.1 }),
        runReload (inputs.map (fun x => (x.1, x.2.2))) users⟩ := by
  induction inputs generalizing users with
  | nil => simp [reloadRun, runReload]
  | cons x rest ih =>
      obtain ⟨hpath, hlt⟩ := h x (List.mem_cons_self x rest)
      obtain ⟨p, hp⟩ := Option.isSome_iff_exists.mp hpath
      have hrest : ∀ y ∈ rest, y.1.path.isSome ∧ jsEqDate y.1.lastTime y.2.1 = false :=
        fun y hy => h y (List.mem_cons_of_mem x hy)
      have hout : reloadFile (okEnv x.2.1 x.2.2) x.1 users =
          ⟨Except.ok (), { x.1 with lastTime := some x.2.1 },
            mergeFile users (x.1, x.2.2), true⟩ := by
        simp [reloadFile, okEnv, hp, hlt, mergeFile]
      simp only [List.map_cons, reloadRun, hout, ih _ hrest, runReload_cons]
      simp
/-- C1: the claim fails on the code.  At the failing input — the file
was observed before (stored `lastTime` is the `Date` with identity 1
and time 5) and is unchanged on disk, so `fs.stat` returns a FRESH
`Date` (identity 2) carrying the SAME time 5 — `_reloadFile`
nevertheless invokes `fs.readFile`, re-merges the contents, and stores
the new `Date`: `lastTime === stats.mtime` compares object references,
which differ on every stat call, so the skip-on-equal-mtime branch
never fires and the file is re-parsed even though its modification time
is unchanged. -/
theorem reloadFile_rereads_unchanged_mtime :
    (DateObj.mk 1 5).time = (DateObj.mk 2 5).time ∧
    jsEqDate (some ⟨1, 5⟩) ⟨2, 5⟩ = false ∧
    (reloadFile (okEnv ⟨2, 5⟩ "u:h") ⟨some "f", "g", true, some ⟨1, 5⟩⟩
        []).readAttempted = true ∧
    (reloadFile (okEnv ⟨2, 5⟩ "u:h") ⟨some "f", "g", true, some ⟨1, 5⟩⟩ []).conf.lastTime =
      some ⟨2, 5⟩ ∧
    (reloadFile (okEnv ⟨2, 5⟩ "u:h") ⟨some "f", "g", true, some ⟨1, 5⟩⟩ []).users =
      [("u", ⟨"h", ["g"]⟩)] := by
  refine ⟨rfl, rfl, by decide, by decide, by decide⟩

/-- C10: in `_reloadFile` the stored `lastTime` is advanced to the newly
observed mtime before the contents are read, so when the read then
fails the promise rejects with the read error while the staleness state
has already changed — the timestamp update is not rolled back, and the
index is untouched. -/
theorem reloadFile_lastTime_updated_on_read_error (env : FileEnv) (item : FileConf)
    (users : UserIndex) (p : String) (m : DateObj) (e : FsErr)
    (hp : item.path = some p) (hs : env.statResult = Except.ok m)
    (hne : jsEqDate item.lastTime m = false) (hr : env.readResult = Except.error e) :
    reloadFile env item users =
      ⟨Except.error e, { item with lastTime := some m }, users, true⟩ := by
  simp [reloadFile, hp, hs, hne, hr]

theorem reloadFile_lastTime_updated_on_read_error_witness :
    reloadFile ⟨Except.ok ⟨1, 7⟩, Except.error ⟨"EIO"⟩⟩ ⟨some "f", "g", false, none⟩ [] =
      ⟨Except.error ⟨"EIO"⟩, ⟨some "f", "g", false, some ⟨1, 7⟩⟩, [], true⟩ :=
  reloadFile_lastTime_updated_on_read_error ⟨Except.ok ⟨1, 7⟩, Except.error ⟨"EIO"⟩⟩
    ⟨some "f", "g", false, none⟩ [] "f" ⟨1, 7⟩ ⟨"EIO"⟩ rfl rfl (by decide) rfl

/-- C9: the constructor's `maxUsers || Infinity` turns every falsy
configured `max_users` (0 or absent) into Infinity, while any nonzero
value, negatives included, is kept as given. -/
theorem maxUsers_falsy_is_unbounded :
    resolveMaxUsers none = MaxUsers.inf ∧ resolveMaxUsers (some 0) = MaxUsers.inf ∧
      ∀ n : Int, n ≠ 0 → resolveMaxUsers (some n) = MaxUsers.num n := by
  refine ⟨rfl, rfl, fun n hn => ?_⟩
  simp [resolveMaxUsers, hn]

theorem maxUsers_falsy_is_unbounded_witness :
    resolveMaxUsers (some (-1)) = MaxUsers.num (-1) :=
  maxUsers_falsy_is_unbounded.2.2 (-1) (by decide)
theorem resolvePath_ne_empty (dir f : String) : resolvePath dir f ≠ "" := by
  intro h
  have hlen := congrArg String.length h
  have h1 : ("/" : String).length = 1 := rfl
  simp [resolvePath, String.length_append, h1] at hlen

/-- C7 counterexample: a configuration with TWO entries marked default
is accepted — `this.files.find(item => item.isDefault)` silently picks
the first one — refuting the claim that construction fails whenever the
number of default entries is not exactly one. -/
theorem constructor_two_defaults_accepted :
    constructorRun (some [⟨"a", true, "g1"⟩, ⟨"b", true, "g2"⟩]) none "/etc" =
      Except.ok ⟨[],
        [⟨some "/etc/a", "g1", true, none⟩, ⟨some "/etc/b", "g2", true, none⟩],
        ⟨some "/etc/a", "g1", true, none⟩, MaxUsers.inf, "/etc/a"⟩ := rfl

/-- C7 (amended): construction fails (throws) when the configured file
list is missing, empty, or contains no entry marked default; it
succeeds whenever the list is nonempty and AT LEAST ONE entry is marked
default — the first such entry becomes the default file — so multiple
defaults are accepted rather than rejected. -/
theorem constructor_validation (dir : String) (mu : Option Int) :
    constructorRun none mu dir = Except.error CtorErr.typeError ∧
    constructorRun (some []) mu dir = Except.error CtorErr.noFiles ∧
    (∀ files : List FileInput, files ≠ [] → (∀ f ∈ files, f.isDefault = false) →
      constructorRun (some files) mu dir = Except.error CtorErr.noDefault) ∧
    (∀ files : List FileInput, files ≠ [] → (∃ f ∈ files, f.isDefault = true) →
      (constructorRun (some files) mu dir).isOk = true) := by
  refine ⟨rfl, rfl, ?_, ?_⟩
  · intro files hne hnodef
    have hfind : (files.map (fun it =>
        FileConf.mk (some (resolvePath dir it.file)) it.groupName it.isDefault none)).find?
          (fun it => it.isDefault) = none := by
      rw [List.find?_eq_none]
      intro x hx
      obtain ⟨it, hit, rfl⟩ := List.mem_map.mp hx
      simpa using hnodef it hit
    simp [constructorRun, hne, hfind]
  · intro files hne hdef
    obtain ⟨f, hf, hfd⟩ := hdef
    have hfind : ((files.map (fun it =>
        FileConf.mk (some (resolvePath dir it.file)) it.groupName it.isDefault none)).find?
          (fun it => it.isDefault)).isSome := by
      rw [List.find?_isSome]
      exact ⟨_, List.mem_map.mpr ⟨f, hf, rfl⟩, by simpa using hfd⟩
    obtain ⟨dc, hdc⟩ := Option.isSome_iff_exists.mp hfind
    have hmem := List.mem_of_find?_eq_some hdc
    obtain ⟨it, hit, rfl⟩ := List.mem_map.mp hmem
    simp [constructorRun, hne, hdc, resolvePath_ne_empty dir it.file, Except.isOk, Except.toBool]

theorem constructor_validation_witness :
    constructorRun (some [⟨"a", false, "g"⟩]) none "/etc" = Except.error CtorErr.noDefault ∧
    (constructorRun (some [⟨"a", true, "g"⟩]) none "/etc").isOk = true :=
  ⟨(constructor_validation "/etc" none).2.2.1 [⟨"a", false, "g"⟩] (by simp)
      (by intro f hf; simp at hf; rw [hf]),
    (constructor_validation "/etc" none).2.2.2 [⟨"a", true, "g"⟩] (by simp)
      ⟨⟨"a", true, "g"⟩, by simp, rfl⟩⟩
/-- C3 counterexample: a reload failure with code ENOENT coming from a
NON-default configured file is also downgraded to a plain
authentication failure — `authenticate` only inspects `err.code`, never
which file failed — contradicting the claim that only a default-file
NotFound is downgraded while any other reload error is surfaced. -/
theorem authenticate_nondefault_enoent_swallowed :
    (reloadRun [(⟨some "/a", "g1", true, none⟩, okEnv ⟨1, 1⟩ "alice:h"),
        (⟨some "/b", "g2", false, none⟩,
          ⟨Except.error ⟨"ENOENT"⟩, Except.error ⟨"ENOENT"⟩⟩)] []).err =
      some ⟨"ENOENT"⟩ ∧
    (FileConf.mk (some "/b") "g2" false none).isDefault = false ∧
    authRun [(⟨some "/a", "g1", true, none⟩, okEnv ⟨1, 1⟩ "alice:h"),
        (⟨some "/b", "g2", false, none⟩,
          ⟨Except.error ⟨"ENOENT"⟩, Except.error ⟨"ENOENT"⟩⟩)]
      "alice" "pw" [] (fun _ _ => false) = ⟨none, none⟩ := by
  refine ⟨by decide, rfl, by decide⟩

/-- C3 (amended): `authenticate` first runs reload; a reload failure
whose error code is ENOENT — whichever configured file produced it — is
downgraded to an authentication failure (no error, falsy result), while
a reload failure with any other code is passed to the caller; when
reload succeeds, an absent username or a failed verification yields a
falsy result and a successful verification yields the user's group
list. -/
theorem authenticate_behaviour (inputs : List (FileConf × FileEnv)) (user password : String)
    (users : UserIndex) (verifyFn : String → String → Bool) :
    (∀ e : FsErr, (reloadRun inputs users).err = some e →
      authRun inputs user password users verifyFn =
        ⟨if e.code = "ENOENT" then none else some e, none⟩) ∧
    ((reloadRun inputs users).err = none →
      lookupU (reloadRun inputs users).users user = none →
      authRun inputs user password users verifyFn = ⟨none, none⟩) ∧
    (∀ u0 : User, (reloadRun inputs users).err = none →
      lookupU (reloadRun inputs users).users user = some u0 →
      authRun inputs user password users verifyFn =
        ⟨none, if verifyFn password u0.passwd then some u0.groups else none⟩) := by
  refine ⟨?_, ?_, ?_⟩
  · intro e he
    simp [authRun, he]
  · intro he hu
    simp [authRun, he, hu]
  · intro u0 he hu
    rcases hv : verifyFn password u0.passwd <;> simp [authRun, he, hu, hv]

theorem authenticate_behaviour_witness :
    authRun [(⟨some "/a", "g1", true, none⟩, okEnv ⟨1, 1⟩ "alice:h")] "alice" "h" []
      (fun p hsh => p == hsh) = ⟨none, some ["g1"]⟩ := by
  have h := (authenticate_behaviour [(⟨some "/a", "g1", true, none⟩, okEnv ⟨1, 1⟩ "alice:h")]
    "alice" "h" [] (fun p hsh => p == hsh)).2.2 ⟨"h", ["g1"]⟩ (by decide) (by decide)
  simpa using h
/-- C2 counterexample: the same configured file list — default file A
(`u:h1`, group g1) listed before file B (`u:h2`, group g2), both fresh
and reading cleanly — produces hash `h1` for user `u` when the
concurrent per-file reads complete in the order B then A, and hash `h2`
when they complete in configured order: a successful reload does NOT
always leave the hash of the last file in configured order, because
`Promise.all` merges in completion order. -/
theorem reload_completion_order_changes_hash :
    (reloadRun [(⟨some "/b", "g2", false, none⟩, okEnv ⟨2, 1⟩ "u:h2"),
        (⟨some "/a", "g1", true, none⟩, okEnv ⟨1, 1⟩ "u:h1")] []).err = none ∧
    passwdAt (reloadRun [(⟨some "/b", "g2", false, none⟩, okEnv ⟨2, 1⟩ "u:h2"),
        (⟨some "/a", "g1", true, none⟩, okEnv ⟨1, 1⟩ "u:h1")] []).users "u" = some "h1" ∧
    (reloadRun [(⟨some "/a", "g1", true, none⟩, okEnv ⟨1, 1⟩ "u:h1"),
        (⟨some "/b", "g2", false, none⟩, okEnv ⟨2, 1⟩ "u:h2")] []).err = none ∧
    passwdAt (reloadRun [(⟨some "/a", "g1", true, none⟩, okEnv ⟨1, 1⟩ "u:h1"),
        (⟨some "/b", "g2", false, none⟩, okEnv ⟨2, 1⟩ "u:h2")] []).users "u" = some "h2" ∧
    ("h1" : String) ≠ "h2" := by
  refine ⟨by decide, by decide, by decide, by decide, by decide⟩

/-- C2 (amended): after a successful reload over files that all exist,
are all stale, and all read cleanly, the index is the merge of the
files' on-disk entries in READ-COMPLETION order: the username set is
the union of the prior keys and all files' users, and a user's group
set is the union of its prior groups with the group names of every file
containing it — both independent of completion order — while the
password hash is the one of the LAST file in completion order
containing the user (the last in configured order exactly when reads
complete in configured order). -/
theorem reload_merged_index (inputs : List (FileConf × DateObj × String))
    (users : UserIndex)
    (h : ∀ x ∈ inputs, x.1.path.isSome ∧ jsEqDate x.1.lastTime x.2.1 = false)
    (u : String) :
    (reloadRun (inputs.map (fun x => (x.1, okEnv x.2.1 x.2.2))) users).err = none ∧
    ((lookupU (reloadRun (inputs.map (fun x => (x.1, okEnv x.2.1 x.2.2))) users).users
        u).isSome ↔
      (lookupU users u).isSome ∨ ∃ x ∈ inputs, (lastHash x.2.2 u).isSome) ∧
    (∀ g : String,
      g ∈ groupsAt (reloadRun (inputs.map (fun x => (x.1, okEnv x.2.1 x.2.2))) users).users
          u ↔
        g ∈ groupsAt users u ∨
          ∃ x ∈ inputs, (lastHash x.2.2 u).isSome ∧ x.1.groupName = g) ∧
    passwdAt (reloadRun (inputs.map (fun x => (x.1, okEnv x.2.1 x.2.2))) users).users u =
      (match lastHashIn (inputs.map (fun x => (x.1, x.2.2))) u with
        | some hh => some hh
        | none => passwdAt users u) := by
  rw [reloadRun_all_fresh inputs users h]
  refine ⟨rfl, ?_, ?_, ?_⟩
  · rw [isSome_lookupU_runReload]
    constructor
    · rintro (h1 | ⟨f, hf, hsome⟩)
      · exact Or.inl h1
      · obtain ⟨x, hx, rfl⟩ := List.mem_map.mp hf
        exact Or.inr ⟨x, hx, hsome⟩
    · rintro (h1 | ⟨x, hx, hsome⟩)
      · exact Or.inl h1
      · exact Or.inr ⟨(x.1, x.2.2), List.mem_map.mpr ⟨x, hx, rfl⟩, hsome⟩
  · intro g
    rw [mem_groupsAt_runReload]
    constructor
    · rintro (h1 | ⟨f, hf, hsome, rfl⟩)
      · exact Or.inl h1
      · obtain ⟨x, hx, rfl⟩ := List.mem_map.mp hf
        exact Or.inr ⟨x, hx, hsome, rfl⟩
    · rintro (h1 | ⟨x, hx, hsome, rfl⟩)
      · exact Or.inl h1
      · exact Or.inr ⟨(x.1, x.2.2), List.mem_map.mpr ⟨x, hx, rfl⟩, hsome, rfl⟩
  · exact passwdAt_runReload _ users u

theorem reload_merged_index_witness :
    (reloadRun [((⟨some "/a", "g1", true, none⟩ : FileConf), okEnv ⟨1, 1⟩ "u:h1")] []).err =
      none ∧
    passwdAt (reloadRun [((⟨some "/a", "g1", true, none⟩ : FileConf),
      okEnv ⟨1, 1⟩ "u:h1")] []).users "u" = some "h1" := by
  have h := reload_merged_index [(⟨some "/a", "g1", true, none⟩, ⟨1, 1⟩, "u:h1")] []
    (by intro x hx; simp at hx; rw [hx]; exact ⟨rfl, by decide⟩) "u"
  refine ⟨?_, ?_⟩
  · simpa using h.1
  · have h4 := h.2.2.2
    simp only [List.map_cons, List.map_nil] at h4
    rw [h4]
    decide
theorem mutFinish_trace (locked : Bool) (err : Option MutErr) (users : UserIndex)
    (tr : List Ev) : ∃ s, (mutFinish locked err users tr).trace = tr ++ s := by
  unfold mutFinish
  split
  · exact ⟨[Ev.unlockEv], rfl⟩
  · exact ⟨[], by simp⟩

theorem adduserTail_trace (env : MutEnv) (locked : Bool) (body user password : String)
    (users : UserIndex) (dg : String) (mU : MaxUsers) (hf : String → String)
    (tr : List Ev) :
    ∃ s, (adduserTail env locked body user password users dg mU hf tr).trace = tr ++ s := by
  unfold adduserTail
  split
  · obtain ⟨s, hs⟩ := mutFinish_trace locked _ _ (tr ++ [Ev.validateEv])
    exact ⟨_, by rw [hs, List.append_assoc]⟩
  · split
    · obtain ⟨s, hs⟩ := mutFinish_trace locked _ _ (tr ++ [Ev.validateEv, Ev.writeEv])
      exact ⟨_, by rw [hs, List.append_assoc]⟩
    · obtain ⟨s, hs⟩ := mutFinish_trace locked _ _
        (tr ++ [Ev.validateEv, Ev.writeEv, Ev.reloadPostWriteEv])
      exact ⟨_, by rw [hs, List.append_assoc]⟩

theorem changePasswordTail_trace (env : MutEnv) (locked : Bool)
    (body user password newPassword : String) (users : UserIndex) (dg : String)
    (hf : String → String) (tr : List Ev) :
    ∃ s, (changePasswordTail env locked body user password newPassword users dg hf
      tr).trace = tr ++ s := by
  unfold changePasswordTail
  split
  · split
    · obtain ⟨s, hs⟩ := mutFinish_trace locked _ _ (tr ++ [Ev.validateEv])
      exact ⟨_, by rw [hs, List.append_assoc]⟩
    · split
      · obtain ⟨s, hs⟩ := mutFinish_trace locked _ _ (tr ++ [Ev.validateEv, Ev.writeEv])
        exact ⟨_, by rw [hs, List.append_assoc]⟩
      · obtain ⟨s, hs⟩ := mutFinish_trace locked _ _
          (tr ++ [Ev.validateEv, Ev.writeEv, Ev.reloadPostWriteEv])
        exact ⟨_, by rw [hs, List.append_assoc]⟩
  · obtain ⟨s, hs⟩ := mutFinish_trace locked _ _ (tr ++ [Ev.validateEv])
    exact ⟨_, by rw [hs, List.append_assoc]⟩

theorem changePasswordRun_trace (env : MutEnv) (user password newPassword : String)
    (users : UserIndex) (dg : String) (hf : String → String) :
    ∃ s, (changePasswordRun env user password newPassword users dg hf).trace =
      Ev.lockReadEv :: s := by
  unfold changePasswordRun
  split
  · split
    · exact changePasswordTail_trace _ _ _ _ _ _ _ _ _ _
    · exact mutFinish_trace _ _ _ _
  · exact changePasswordTail_trace _ _ _ _ _ _ _ _ _ _

/-- C4 counterexample: a username present in the merged in-memory index
(here via a non-default file's earlier contribution) but absent from
the default file's current content is rejected with `User not found`:
the validation consults `defaultUsers` — the fresh parse of the default
file alone — not the merged index, contradicting the claim that any
username present in the merged index passes validation. -/
theorem changePassword_rejects_merged_user :
    (lookupU (assignIndex [("alice", ⟨"h0", ["other"]⟩)]
        (parseHTPasswd "" "gdef" [("alice", ⟨"h0", ["other"]⟩)])) "alice").isSome = true ∧
    (changePasswordRun ⟨⟨true, none, some ""⟩, none, []⟩ "alice" "old" "new"
        [("alice", ⟨"h0", ["other"]⟩)] "gdef" (fun s => s)).err =
      some MutErr.userNotFound ∧
    Ev.writeEv ∉ (changePasswordRun ⟨⟨true, none, some ""⟩, none, []⟩ "alice" "old" "new"
        [("alice", ⟨"h0", ["other"]⟩)] "gdef" (fun s => s)).trace := by
  refine ⟨by decide, by decide, by decide⟩

/-- C4 (amended): `changePassword` validates the target username against
the freshly parsed content of the default file only: whenever that
parse lacks the username the operation fails with `User not found` and
never reaches the write step — even when the username is present in the
merged index through another configured file; a username absent from
the merged index is always absent from the default-file parse, so such
usernames are indeed always rejected. -/
theorem changePassword_validates_default_file (env : MutEnv)
    (user password newPassword body : String) (users : UserIndex) (dg : String)
    (hf : String → String)
    (herr : env.lockRead.err = none) (hres : env.lockRead.res = some body) :
    (lookupU (parseHTPasswd body dg users) user = none →
      (changePasswordRun env user password newPassword users dg hf).err =
        some MutErr.userNotFound ∧
      Ev.writeEv ∉ (changePasswordRun env user password newPassword users dg hf).trace) ∧
    (lookupU (assignIndex users (parseHTPasswd body dg users)) user = none →
      lookupU (parseHTPasswd body dg users) user = none) := by
  constructor
  · intro habs
    have hrun : changePasswordRun env user password newPassword users dg hf =
        mutFinish true (some MutErr.userNotFound)
          (assignIndex users (parseHTPasswd body dg users))
          [Ev.lockReadEv, Ev.validateEv] := by
      unfold changePasswordRun changePasswordTail
      simp [herr, hres, habs]
    rw [hrun]
    refine ⟨rfl, ?_⟩
    simp [mutFinish]
  · intro hmerged
    rw [lookupU_assignIndex] at hmerged
    rw [← lookupLast_eq_lookupU _ _ (nodup_keys_parseHTPasswd body dg users)]
    rcases hl : lookupLast (parseHTPasswd body dg users) user with _ | v
    · rfl
    · rw [hl] at hmerged
      cases hmerged

theorem changePassword_validates_default_file_witness :
    (changePasswordRun ⟨⟨true, none, some "bob:x"⟩, none, []⟩ "ghost" "a" "b" [] "g"
        (fun s => s)).err = some MutErr.userNotFound ∧
    Ev.writeEv ∉ (changePasswordRun ⟨⟨true, none, some "bob:x"⟩, none, []⟩ "ghost" "a" "b"
        [] "g" (fun s => s)).trace :=
  (changePassword_validates_default_file ⟨⟨true, none, some "bob:x"⟩, none, []⟩ "ghost"
    "a" "b" "bob:x" [] "g" (fun s => s) rfl rfl).1 (by decide)

/-- C5: the claim fails on the code.  At the failing input —
`lockAndRead` reports ENOENT for the missing default file while the
advisory lock acquisition itself succeeded (spec 4.2) — `adduser` runs
the whole mutation to a successful finish yet invokes `unlockFile` zero
times, because `locked` is set only when `lockAndRead` reported no
error at all, conflating read failure with acquisition failure. -/
theorem adduser_enoent_never_unlocks :
    (LockReadRes.mk true (some ⟨"ENOENT"⟩) none).acquired = true ∧
    (adduserRun ⟨⟨true, some ⟨"ENOENT"⟩, none⟩, none, []⟩ "alice" "pw" [] "g"
        MaxUsers.inf (fun s => s)).err = none ∧
    (adduserRun ⟨⟨true, some ⟨"ENOENT"⟩, none⟩, none, []⟩ "alice" "pw" [] "g"
        MaxUsers.inf (fun s => s)).ok = true ∧
    (adduserRun ⟨⟨true, some ⟨"ENOENT"⟩, none⟩, none, []⟩ "alice" "pw" [] "g"
        MaxUsers.inf (fun s => s)).unlockAttempts = 0 := by
  refine ⟨rfl, by decide, by decide, by decide⟩
/-- C8 counterexample: `changePassword` performs NO validation before
file I/O — its very first step is `lockAndRead` — contradicting the
claim that in every mutation operation validation runs against the
cached index before any file I/O. -/
theorem changePassword_no_preliminary_validation :
    validationBeforeFileOp (changePasswordRun ⟨⟨true, none, some ""⟩, none, []⟩ "u" "a"
        "b" [] "g" (fun s => s)).trace = false ∧
    Ev.lockReadEv ∈ (changePasswordRun ⟨⟨true, none, some ""⟩, none, []⟩ "u" "a" "b" []
        "g" (fun s => s)).trace := by
  refine ⟨by decide, by decide⟩

/-- C8 (amended): `adduser` validates against the cached index before
any file I/O (its trace starts with the sanity check, and a failed
pre-check stops before any file operation) and re-validates against the
freshly merged index before writing, so a write implies the post-reload
validation succeeded; `changePassword`, by contrast, performs no
validation before its initial lock-and-read, but it too writes only
after its (single, post-read) validation has succeeded. -/
theorem mutation_validation_discipline :
    (∀ (env : MutEnv) (user password : String) (users : UserIndex) (dg : String)
        (mU : MaxUsers) (hf : String → String),
      (adduserRun env user password users dg mU hf).trace.head? = some Ev.sanityEv ∧
      (sanityCheck user password users mU ≠ none →
        (adduserRun env user password users dg mU hf).trace = [Ev.sanityEv])) ∧
    (∀ (env : MutEnv) (user password body : String) (users : UserIndex) (dg : String)
        (mU : MaxUsers) (hf : String → String),
      env.lockRead.err = none → env.lockRead.res = some body →
      Ev.writeEv ∈ (adduserRun env user password users dg mU hf).trace →
      sanityCheck user password (assignIndex users (parseHTPasswd body dg users)) mU =
        none) ∧
    (∀ (env : MutEnv) (user password newPassword : String) (users : UserIndex)
        (dg : String) (hf : String → String),
      validationBeforeFileOp
        (changePasswordRun env user password newPassword users dg hf).trace = false) ∧
    (∀ (env : MutEnv) (user password newPassword body : String) (users : UserIndex)
        (dg : String) (hf : String → String),
      env.lockRead.err = none → env.lockRead.res = some body →
      Ev.writeEv ∈ (changePasswordRun env user password newPassword users dg hf).trace →
      (lookupU (parseHTPasswd body dg users) user).isSome = true) := by
  refine ⟨?_, ?_, ?_, ?_⟩
  · intro env user password users dg mU hf
    constructor
    · unfold adduserRun
      rcases h1 : sanityCheck user password users mU with _ | e
      · rcases h2 : env.lockRead.err with _ | e2
        · obtain ⟨s, hs⟩ := adduserTail_trace env true (env.lockRead.res.getD "") user
            password users dg mU hf [Ev.sanityEv, Ev.lockReadEv]
          simp [hs]
        · by_cases hc : e2.code = "ENOENT"
          · obtain ⟨s, hs⟩ := adduserTail_trace env false "" user password users dg mU hf
              [Ev.sanityEv, Ev.lockReadEv]
            simp [hc, hs]
          · obtain ⟨s, hs⟩ := mutFinish_trace false (some (MutErr.fsErr e2.code)) users
              [Ev.sanityEv, Ev.lockReadEv]
            simp [hc, hs]
      · rfl
    · intro hne
      rcases h1 : sanityCheck user password users mU with _ | e
      · exact absurd h1 hne
      · simp [adduserRun, h1]
  · intro env user password body users dg mU hf herr hres hw
    unfold adduserRun at hw
    rcases h1 : sanityCheck user password users mU with _ | e
    · simp only [h1, herr, hres, Option.getD_some] at hw
      unfold adduserTail at hw
      rcases h2 : sanityCheck user password
          (assignIndex users (parseHTPasswd body dg users)) mU with _ | e2
      · rfl
      · simp only [h2] at hw
        simp [mutFinish] at hw
    · simp only [h1] at hw
      simp at hw
  · intro env user password newPassword users dg hf
    obtain ⟨s, hs⟩ := changePasswordRun_trace env user password newPassword users dg hf
    rw [hs]
    simp [validationBeforeFileOp, List.takeWhile_cons, isFileOp]
  · intro env user password newPassword body users dg hf herr hres hw
    unfold changePasswordRun at hw
    simp only [herr, hres, Option.getD_some] at hw
    cases hval : (lookupU (parseHTPasswd body dg users) user).isSome
    · exfalso
      unfold changePasswordTail at hw
      simp only [hval] at hw
      simp [mutFinish] at hw
    · rfl

theorem mutation_validation_discipline_witness :
    sanityCheck "alice" "pw" (assignIndex [] (parseHTPasswd "" "g" [])) MaxUsers.inf =
      none ∧
    (lookupU (parseHTPasswd "u:h" "g" []) "u").isSome = true :=
  ⟨mutation_validation_discipline.2.1 ⟨⟨true, none, some ""⟩, none, []⟩ "alice" "pw" ""
      [] "g" MaxUsers.inf (fun s => s) rfl rfl (by decide),
    mutation_validation_discipline.2.2.2 ⟨⟨true, none, some "u:h"⟩, none, []⟩ "u" "a" "b"
      "u:h" [] "g" (fun s => s) rfl rfl (by decide)⟩
theorem lookupU_assignIndex_mono (base upd : UserIndex) (u : String)
    (h : (lookupU base u).isSome) : (lookupU (assignIndex base upd) u).isSome := by
  rw [lookupU_assignIndex]
  rcases lookupLast upd u with _ | v
  · exact h
  · rfl

theorem reloadFile_users_mono (env : FileEnv) (item : FileConf) (users : UserIndex)
    (u : String) (h : (lookupU users u).isSome) :
    (lookupU (reloadFile env item users).users u).isSome := by
  unfold reloadFile
  repeat' split
  all_goals first
    | exact h
    | exact lookupU_assignIndex_mono users _ u h

theorem reloadRun_users_mono (inputs : List (FileConf × FileEnv)) (users : UserIndex)
    (u : String) (h : (lookupU users u).isSome) :
    (lookupU (reloadRun inputs users).users u).isSome := by
  induction inputs generalizing users with
  | nil => exact h
  | cons fe rest ih =>
      exact ih _ (reloadFile_users_mono fe.2 fe.1 users u h)

theorem mutFinish_users (locked : Bool) (err : Option MutErr) (users : UserIndex)
    (tr : List Ev) : (mutFinish locked err users tr).users = users := by
  unfold mutFinish
  split <;> rfl

theorem adduserTail_users_mono (env : MutEnv) (locked : Bool)
    (body user password : String) (users : UserIndex) (dg : String) (mU : MaxUsers)
    (hf : String → String) (tr : List Ev) (u : String) (h : (lookupU users u).isSome) :
    (lookupU (adduserTail env locked body user password users dg mU hf tr).users
      u).isSome := by
  unfold adduserTail
  repeat' split
  all_goals rw [mutFinish_users]
  · exact lookupU_assignIndex_mono users _ u h
  · exact lookupU_assignIndex_mono users _ u h
  · exact reloadRun_users_mono _ _ u (lookupU_assignIndex_mono users _ u h)

theorem changePasswordTail_users_mono (env : MutEnv) (locked : Bool)
    (body user password newPassword : String) (users : UserIndex) (dg : String)
    (hf : String → String) (tr : List Ev) (u : String) (h : (lookupU users u).isSome) :
    (lookupU (changePasswordTail env locked body user password newPassword users dg hf
      tr).users u).isSome := by
  unfold changePasswordTail
  repeat' split
  all_goals rw [mutFinish_users]
  · exact lookupU_assignIndex_mono users _ u h
  · exact lookupU_assignIndex_mono users _ u h
  · exact reloadRun_users_mono _ _ u (lookupU_assignIndex_mono users _ u h)
  · exact lookupU_assignIndex_mono users _ u h

/-- C6: every operation only ever adds or overwrites entries of the
in-memory index, never removes one: any username present in the index
before a reload, adduser, or changePassword call is still present in
the index the call leaves behind, whatever the file-system outcomes. -/
theorem index_keys_nondecreasing (u : String) :
    (∀ (inputs : List (FileConf × FileEnv)) (users : UserIndex),
      (lookupU users u).isSome → (lookupU (reloadRun inputs users).users u).isSome) ∧
    (∀ (env : MutEnv) (user password : String) (users : UserIndex) (dg : String)
        (mU : MaxUsers) (hf : String → String),
      (lookupU users u).isSome →
        (lookupU (adduserRun env user password users dg mU hf).users u).isSome) ∧
    (∀ (env : MutEnv) (user password newPassword : String) (users : UserIndex)
        (dg : String) (hf : String → String),
      (lookupU users u).isSome →
        (lookupU (changePasswordRun env user password newPassword users dg hf).users
          u).isSome) := by
  refine ⟨fun inputs users h => reloadRun_users_mono inputs users u h, ?_, ?_⟩
  · intro env user password users dg mU hf h
    unfold adduserRun
    repeat' split
    all_goals first
      | exact h
      | exact adduserTail_users_mono env _ _ user password users dg mU hf _ u h
  · intro env user password newPassword users dg hf h
    unfold changePasswordRun
    repeat' split
    all_goals first
      | exact changePasswordTail_users_mono env _ _ user password newPassword users dg hf
          _ u h
      | (rw [mutFinish_users]; exact h)

theorem index_keys_nondecreasing_witness :
    (lookupU (reloadRun [((⟨some "/a", "g1", true, none⟩ : FileConf), okEnv ⟨1, 1⟩ "b:h")]
        [("z", ⟨"hz", ["g0"]⟩)]).users "z").isSome = true ∧
    (lookupU (adduserRun ⟨⟨true, none, some ""⟩, none, []⟩ "alice" "pw"
        [("z", ⟨"hz", ["g0"]⟩)] "g" MaxUsers.inf (fun s => s)).users "z").isSome = true ∧
    (lookupU (changePasswordRun ⟨⟨true, none, some "z:hz"⟩, none, []⟩ "z" "a" "b"
        [("z", ⟨"hz", ["g0"]⟩)] "g" (fun s => s)).users "z").isSome = true :=
  ⟨(index_keys_nondecreasing "z").1 [(⟨some "/a", "g1", true, none⟩, okEnv ⟨1, 1⟩ "b:h")]
      [("z", ⟨"hz", ["g0"]⟩)] (by decide),
    (index_keys_nondecreasing "z").2.1 ⟨⟨true, none, some ""⟩, none, []⟩ "alice" "pw"
      [("z", ⟨"hz", ["g0"]⟩)] "g" MaxUsers.inf (fun s => s) (by decide),
    (index_keys_nondecreasing "z").2.2 ⟨⟨true, none, some "z:hz"⟩, none, []⟩ "z" "a" "b"
      [("z", ⟨"hz", ["g0"]⟩)] "g" (fun s => s) (by decide)⟩
